import Mathlib

/-!
Shallow embedding of the runtime layer of the Ket quantum-programming
library (`src/ket/base.py`): qubit groups (`Quant`), allocation, the
deferred results `Measurement`, `QuantumState` and `Samples`, and the
growing-buffer retrieval loop of `Process.get_metadata` and
`Process.get_instructions`.

Modelling conventions:
* Python exceptions are values of `PyError`, carrying the exception class
  and message of the `raise` statement in the source.
* The Rust execution engine (libket) is external to the repository; its
  narrow contract (fresh qubit indices, per-index measurement/dump/sample
  query results, readiness flags) is passed in as explicit data.
* Python `float`/`complex` arithmetic is embedded as `ℝ`/`ℂ`.
* Process object identity (`is` in Python) is a `Nat` tag.
-/

namespace Ket

/-- Python exception raised by the runtime, as class plus message. -/
inductive PyError where
  | valueError (msg : String)
  | runtimeError (msg : String)
  | indexError (msg : String)
deriving DecidableEq

/-- Python exception class name, the datum an `except` clause can branch on. -/
def PyError.cls : PyError → String
  | .valueError _ => "ValueError"
  | .runtimeError _ => "RuntimeError"
  | .indexError _ => "IndexError"

/-- List of qubits (`Quant` in `base.py`): ordered qubit indices plus the
identity of the owning process (`self.process`, compared with `is`). -/
structure Quant where
  qubits : List Nat
  process : Nat
deriving DecidableEq

/-- Embedding of `Process.alloc`: `state` is the engine's fresh-index counter.
The guard `num_qubits < 1` raises `ValueError("Cannot allocate less than 1
qubit")` before any `allocate_qubit` call; otherwise `num_qubits` fresh
indices are drawn. The engine side (`allocate_qubit`) is external to the
repository and is modelled, per the spec's engine contract, as a
monotonically growing index counter handing out fresh indices. -/
def Process.alloc (pid : Nat) (state : Nat) (num_qubits : Int) :
    Except PyError Quant × Nat :=
  if num_qubits < 1 then
    (.error (.valueError "Cannot allocate less than 1 qubit"), state)
  else
    (.ok ⟨(List.range num_qubits.toNat).map (fun i => state + i), pid⟩,
      state + num_qubits.toNat)

/-- Embedding of `Quant.__add__`: concatenation fails when the two groups do
not reference the same process object. -/
def Quant.__add__ (a b : Quant) : Except PyError Quant :=
  if a.process ≠ b.process then
    .error (.valueError "Cannot concatenate qubits from different processes")
  else
    .ok ⟨a.qubits ++ b.qubits, a.process⟩

/-- Embedding of `Quant.__reversed__`. -/
def Quant.__reversed__ (q : Quant) : Quant :=
  ⟨q.qubits.reverse, q.process⟩

/-- Embedding of `Quant.is_free`: `status` is the engine's
`get_qubit_status` allocated-flag per qubit index. -/
def Quant.is_free (status : Nat → Bool) (q : Quant) : Bool :=
  q.qubits.all (fun qubit => ! status qubit)

/-- Embedding of `Quant.__exit__`: a scope exit with a non-free group raises
`RuntimeError("non-free quant at the end of scope")`. -/
def Quant.__exit__ (status : Nat → Bool) (q : Quant) : Except PyError Unit :=
  if ¬ q.is_free status then
    .error (.runtimeError "non-free quant at the end of scope")
  else
    .ok ()

/-- Python list index normalization: negative indices count from the end;
out-of-range indices are rejected. -/
def pyIndex (len : Nat) (i : Int) : Option Nat :=
  let j := if i < 0 then i + len else i
  if 0 ≤ j ∧ j < (len : Int) then some j.toNat else none

/-- Python `list.__getitem__` with an integer key. -/
def listGetInt (l : List Nat) (i : Int) : Except PyError Nat :=
  match pyIndex l.length i with
  | some j => .ok (l.getD j 0)
  | none => .error (.indexError "list index out of range")

/-- Clamp one slice endpoint the way CPython `PySlice_AdjustIndices` does. -/
def sliceAdjust (len : Nat) (stp : Int) (v : Int) : Int :=
  let x := if v < 0 then v + len else v
  if x < 0 then (if stp < 0 then -1 else 0)
  else if x ≥ (len : Int) then (if stp < 0 then (len : Int) - 1 else len) else x

/-- Python `list.__getitem__` with a slice key (CPython slice semantics:
optional start/stop/step, negative indices and steps, clamping). -/
def listGetSlice (l : List Nat) (start stop step : Option Int) :
    Except PyError (List Nat) :=
  let stp := step.getD 1
  if stp = 0 then .error (.valueError "slice step cannot be zero")
  else
    let len : Int := l.length
    let s := match start with
      | none => if stp < 0 then len - 1 else 0
      | some x => sliceAdjust l.length stp x
    let e := match stop with
      | none => if stp < 0 then -1 else len
      | some x => sliceAdjust l.length stp x
    let cnt := if stp > 0 then
        (if e > s then ((e - s - 1) / stp + 1).toNat else 0)
      else
        (if s > e then ((s - e - 1) / (-stp) + 1).toNat else 0)
    .ok ((List.range cnt).map (fun k => l.getD (s + k * stp).toNat 0))

/-- Key accepted by `Quant.__getitem__`: an integer or a slice. -/
inductive PyKey where
  | int (i : Int)
  | slice (start stop step : Option Int)
deriving DecidableEq

/-- Embedding of `Quant.__getitem__`: delegates to `list.__getitem__` and
wraps a non-list (single element) result into a one-element list, always
returning a `Quant` over the same process. -/
def Quant.__getitem__ (q : Quant) (key : PyKey) : Except PyError Quant :=
  match key with
  | .int i => (listGetInt q.qubits i).map (fun v => ⟨[v], q.process⟩)
  | .slice s e st =>
      (listGetSlice q.qubits s e st).map (fun l => ⟨l, q.process⟩)

/-- Split a qubit-index list into consecutive chunks of at most 64, the
embedding of `[qubits[i : i + 64] for i in range(0, len(qubits), 64)]` in
the `Measurement` constructor. -/
def chunkList (l : List Nat) : List (List Nat) :=
  if l = [] then []
  else l.take 64 :: chunkList (l.drop 64)
termination_by l.length
decreasing_by
  cases l with
  | nil => simp at *
  | cons a t => simp [List.length_drop]; omega

/-- Deferred measurement result (`Measurement` in `base.py`): the 64-qubit
chunks of the measured group, the engine-assigned result index of each
chunk, and the cached resolved value. -/
structure Measurement where
  chunks : List (List Nat)
  indexes : List Nat
  _value : Option Nat
deriving DecidableEq

/-- Embedding of the `Measurement` constructor: split the group into chunks
of at most 64 qubits and register one engine measurement per chunk
(`measure` stands for the engine's `measure` call returning a result
index). -/
def Measurement.init (measure : List Nat → Nat) (qubits : List Nat) :
    Measurement :=
  let chunks := chunkList qubits
  { chunks := chunks, indexes := chunks.map measure, _value := none }

/-- Engine view used by `Measurement._check`: `get_measurement` maps a
result index to its readiness flag and value. -/
structure MeasEngine where
  get_measurement : Nat → Bool × Nat
deriving Inhabited

/-- Embedding of `Measurement._check`: if no value is cached, poll every
sub-measurement; when all are ready, cache the shift-or assembly of the
chunk results (most-significant chunk first). With no sub-measurements the
source's `available, values = zip(*(...))` unpacking of an empty `zip`
raises a `ValueError`. -/
def Measurement._check (e : MeasEngine) (m : Measurement) :
    Except PyError Measurement :=
  match m._value with
  | some _ => .ok m
  | none =>
    match m.indexes.map e.get_measurement with
    | [] => .error (.valueError "not enough values to unpack (expected 2, got 0)")
    | results =>
      if results.all (fun r => r.1) then
        let v := (m.chunks.zip (results.map (fun r => r.2))).foldl
          (fun acc p => (acc <<< p.1.length) ||| p.2) 0
        .ok { m with _value := some v }
      else
        .ok m

/-- Embedding of the `Measurement.value` property: run `_check`, then read
the cached value. -/
def Measurement.value (e : MeasEngine) (m : Measurement) :
    Except PyError (Option Nat × Measurement) :=
  (m._check e).map (fun m2 => (m2._value, m2))

/-- Embedding of `Measurement.get`: run `_check`; if still unresolved force
`Process.execute()` (the engine state becomes `post`) and re-read
`value`. -/
def Measurement.get (pre post : MeasEngine) (m : Measurement) :
    Except PyError (Option Nat × Measurement) :=
  match m._check pre with
  | .error err => .error err
  | .ok m2 =>
    match m2._value with
    | some _ => m2.value pre
    | none => m2.value post

/-- Concatenation formula stated by the spec: each chunk result is shifted
left by the total width of all later chunks and or-ed together,
most-significant chunk first. Pairs are (chunk width, chunk result). -/
def assembleSpec : List (Nat × Nat) → Nat
  | [] => 0
  | (w, v) :: rest => (v <<< (rest.map Prod.fst).sum) ||| assembleSpec rest

/-- One record reported by the engine's `get_dump`: the basis-state bit
pattern as a list of 64-bit machine words (most-significant word first) and
the complex amplitude (`amp_real`, `amp_imag`). -/
structure DumpRecord where
  state : List Nat
  amp : ℂ

/-- Embedding of
`int("".join(f"{state[j]:064b}" for j in range(state_size)), 2)`:
concatenate the 64-bit word chunks, in order, into a single basis-state
integer (each word is below `2 ^ 64`, coming from a `c_uint64`). -/
def decodeState (ws : List Nat) : Nat :=
  ws.foldl (fun acc w => acc * 2 ^ 64 + w) 0

/-- Embedding of the `defaultdict(complex)` accumulation loop in
`QuantumState._check`: amplitudes of records with equal decoded basis
states are summed. -/
noncomputable def accumulate (recs : List DumpRecord) : Nat → ℂ :=
  recs.foldl
    (fun f r s => if s = decodeState r.state then f s + r.amp else f s)
    (fun _ => 0)

/-- Key set of the accumulated dictionary: the distinct decoded basis
states of the reported records. -/
def dumpKeys (recs : List DumpRecord) : List Nat :=
  (recs.map (fun r => decodeState r.state)).dedup

/-- Embedding of `p = sum(map(lambda a: abs(a) ** 2, states.values()))`:
total probability mass of an accumulated amplitude dictionary. -/
noncomputable def probMassOf (f : Nat → ℂ) (ks : List Nat) : ℝ :=
  (ks.map (fun s => Complex.abs (f s) ^ 2)).sum

/-- Embedding of the decoding in `QuantumState._check`: accumulate the
records, then keep the dictionary as is when its probability mass is
within `1e-10` of `1.0`, and otherwise divide every amplitude by the
square root of the mass. The dictionary is represented as an association
list over its key set. -/
noncomputable def resolveDump (recs : List DumpRecord) : List (Nat × ℂ) :=
  let f := accumulate recs
  let ks := dumpKeys recs
  let p := probMassOf f ks
  if |p - 1| < 1e-10 then ks.map (fun s => (s, f s))
  else ks.map (fun s => (s, f s / (Real.sqrt p : ℝ)))

/-- Deferred state snapshot (`QuantumState` in `base.py`): engine dump
index, qubit count, and the cached resolved amplitude mapping. -/
structure QuantumState where
  index : Nat
  size : Nat
  _states : Option (List (Nat × ℂ))

/-- Engine view used by `QuantumState._check`: readiness flag
(`get_dump_size`) and the dump records (`get_dump` per record index). -/
structure DumpEngine where
  available : Bool
  records : List DumpRecord

/-- Embedding of `QuantumState._check`: if no mapping is cached and the
engine reports the dump available, decode and cache it. -/
noncomputable def QuantumState._check (e : DumpEngine) (q : QuantumState) :
    QuantumState :=
  match q._states with
  | some _ => q
  | none =>
    if e.available then { q with _states := some (resolveDump e.records) }
    else q

/-- Embedding of the `QuantumState.states` property: run `_check`, then
read the cached mapping. -/
noncomputable def QuantumState.states (e : DumpEngine) (q : QuantumState) :
    Option (List (Nat × ℂ)) × QuantumState :=
  let q2 := q._check e
  (q2._states, q2)

/-- Embedding of `QuantumState.get`: run `_check`; if still unresolved
force `Process.execute()` (the engine state becomes `post`) and re-read
`states`. -/
noncomputable def QuantumState.get (pre post : DumpEngine)
    (q : QuantumState) : Option (List (Nat × ℂ)) × QuantumState :=
  let q2 := q._check pre
  match q2._states with
  | some _ => q2.states pre
  | none => q2.states post

/-- Embedding of the `QuantumState.probabilities` property: squared
magnitudes of the resolved amplitudes, keyed like the state dictionary. -/
noncomputable def QuantumState.probabilities (e : DumpEngine)
    (q : QuantumState) : Option (List (Nat × ℝ)) :=
  match (q._check e)._states with
  | none => none
  | some sts => some (sts.map (fun p => (p.1, Complex.abs p.2 ^ 2)))

/-- Deferred shot-sample result (`Samples` in `base.py`): engine sample
index and the cached outcome-to-count histogram. -/
structure Samples where
  index : Nat
  _value : Option (List (Nat × Nat))
deriving DecidableEq

/-- Engine view used by `Samples._check`: readiness flag plus the states
and counts arrays and their filled size, as returned by `get_sample`. -/
structure SampleEngine where
  available : Bool
  states : List Nat
  counts : List Nat
  size : Nat

/-- Embedding of `Samples._check`: if no value is cached and the engine
reports the sample available, cache
`dict(zip(states[:size], count[:size]))`. -/
def Samples._check (e : SampleEngine) (s : Samples) : Samples :=
  match s._value with
  | some _ => s
  | none =>
    if e.available then
      { s with _value := some ((e.states.take e.size).zip (e.counts.take e.size)) }
    else s

/-- Embedding of the `Samples.value` property. -/
def Samples.value (e : SampleEngine) (s : Samples) :
    Option (List (Nat × Nat)) × Samples :=
  let s2 := s._check e
  (s2._value, s2)

/-- Embedding of `Samples.get`: run `_check`; if still unresolved force
`Process.execute()` (the engine state becomes `post`) and re-read
`value`. -/
def Samples.get (pre post : SampleEngine) (s : Samples) :
    Option (List (Nat × Nat)) × Samples :=
  let s2 := s._check pre
  match s2._value with
  | some _ => s2.value pre
  | none => s2.value post

/-- Embedding of `Process.get_metadata`: `required` is the byte count the
engine's `metadata_json` call reports (the same call is retried, so it is
fixed), `content` is the buffer content the engine writes as a function of
the buffer capacity, and `bufSize` is `self._metadata_buffer_size`. When
the reported size exceeds the capacity, the buffer is reallocated with
capacity `required + 1` and the call is retried; otherwise the payload is
the first `required` bytes of the buffer. Returns the decoded payload and
the final buffer capacity. -/
def Process.get_metadata (required : Nat) (content : Nat → List Nat)
    (bufSize : Nat) : List Nat × Nat :=
  if required > bufSize then Process.get_metadata required content (required + 1)
  else ((content bufSize).take required, bufSize)
termination_by required + 1 - bufSize
decreasing_by simp_wf; omega

/-- Embedding of `Process.get_instructions`, identical retry protocol over
`instructions_json` and `self._instructions_buffer_size`. -/
def Process.get_instructions (required : Nat) (content : Nat → List Nat)
    (bufSize : Nat) : List Nat × Nat :=
  if required > bufSize then
    Process.get_instructions required content (required + 1)
  else ((content bufSize).take required, bufSize)
termination_by required + 1 - bufSize
decreasing_by simp_wf; omega

/-- Running partial sums, the embedding of `itertools.accumulate` used by
`random.Random.choices` to build `cum_weights`. -/
noncomputable def cumWeights (l : List ℝ) : List ℝ :=
  (l.scanl (· + ·) 0).tail

/-- Rightmost insertion point of `x` in the first `hi` entries of the
sorted list `a`, the embedding of `bisect.bisect(a, x, 0, hi)` as used by
`Random.choices` (its `cum_weights` argument is sorted since the weights
used are nonnegative). -/
noncomputable def bisectRight (a : List ℝ) (x : ℝ) (hi : Nat) : Nat :=
  ((a.take hi).takeWhile
    (fun y => @decide (y ≤ x) (Classical.propDecidable _))).length

/-- Embedding of CPython `random.Random.choices(population, weights, k=k)`
(Python 3.9+): build cumulative weights, reject a weight list of the wrong
length or with total not greater than zero, then draw `k` outcomes by
bisecting a uniform draw scaled by the total. `rand i` stands for the
`i`-th `random()` value of the generator, a deterministic function of the
seed given to `Random(seed)`. -/
noncomputable def pyChoices (rand : Nat → ℝ) (population : List Nat)
    (weights : List ℝ) (k : Nat) : Except PyError (List Nat) :=
  let cum := cumWeights weights
  if cum.length ≠ population.length then
    .error (.valueError "The number of weights does not match the population")
  else
    let total := cum.getLastD 0
    if total ≤ 0 then
      .error (.valueError "Total of weights must be greater than zero")
    else
      let hi := population.length - 1
      .ok ((List.range k).map
        (fun i => population.getD (bisectRight cum (rand i * total) hi) 0))

/-- Outcome-to-count dictionary built by the result loop of
`QuantumState.sample`. -/
def histogram (l : List Nat) : List (Nat × Nat) :=
  l.dedup.map (fun s => (s, l.count s))

/-- Embedding of `QuantumState.sample`: run `_check`; return `none` when
unresolved; otherwise call
`rng.choices(list(self.states), list(self.probabilities), k=shots)` and
histogram the drawn outcomes. Iterating the `self.probabilities`
dictionary yields its keys, so the weights passed to `choices` are the
basis-state labels, not the probability values. `rand` is the `random()`
stream of `Random(seed)`, a deterministic function of the seed. -/
noncomputable def QuantumState.sample (rand : Nat → ℝ) (e : DumpEngine)
    (q : QuantumState) (shots : Nat) :
    Except PyError (Option (List (Nat × Nat))) :=
  let q2 := q._check e
  match q2._states with
  | none => .ok none
  | some sts =>
    let population := sts.map Prod.fst
    let probs := sts.map (fun p => (p.1, Complex.abs p.2 ^ 2))
    let weights := (probs.map Prod.fst).map (fun n => (n : ℝ))
    match pyChoices rand population weights shots with
    | .error err => .error err
    | .ok drawn => .ok (some (histogram drawn))

/-- Decidable equality of `Except` values, for evaluating the embeddings
at concrete inputs. -/
instance {ε α : Type} [DecidableEq ε] [DecidableEq α] :
    DecidableEq (Except ε α) := fun a b =>
  match a, b with
  | .error x, .error y => decidable_of_iff (x = y) (by simp)
  | .error _, .ok _ => isFalse (by simp)
  | .ok _, .error _ => isFalse (by simp)
  | .ok x, .ok y => decidable_of_iff (x = y) (by simp)

/-! ## Theorems -/

/-- C9: `Quant.__reversed__` returns a new group over the same process with
the reversed index sequence, and double reversal is the identity. -/
theorem C9_reversed_involutive (q : Quant) :
    (q.__reversed__).qubits = q.qubits.reverse ∧
    (q.__reversed__).process = q.process ∧
    (q.__reversed__).__reversed__ = q := by
  refine ⟨rfl, rfl, ?_⟩
  cases q with
  | mk qs p => simp [Quant.__reversed__]

/-- C5: concatenating groups of different processes raises the
cross-process `ValueError`; concatenating groups of one process returns
the left indices followed by the right indices, length-additive. -/
theorem C5_concat (a b : Quant) :
    (a.process ≠ b.process →
      a.__add__ b =
        .error (.valueError "Cannot concatenate qubits from different processes")) ∧
    (a.process = b.process →
      a.__add__ b = .ok ⟨a.qubits ++ b.qubits, a.process⟩ ∧
      (a.qubits ++ b.qubits).length = a.qubits.length + b.qubits.length) := by
  constructor
  · intro h
    simp [Quant.__add__, h]
  · intro h
    exact ⟨by simp [Quant.__add__, h], List.length_append a.qubits b.qubits⟩

/-- Witness for C5 at concrete groups: distinct processes fail, one
process concatenates. -/
theorem C5_concat_witness :
    Quant.__add__ ⟨[0], 0⟩ ⟨[1], 1⟩ =
      .error (.valueError "Cannot concatenate qubits from different processes") ∧
    Quant.__add__ ⟨[0, 1], 0⟩ ⟨[2], 0⟩ = .ok ⟨[0, 1, 2], 0⟩ :=
  ⟨(C5_concat ⟨[0], 0⟩ ⟨[1], 1⟩).1 (by decide),
    ((C5_concat ⟨[0, 1], 0⟩ ⟨[2], 0⟩).2 rfl).1⟩

/-- C6: `alloc(n)` with `n ≥ 1` returns `n` fresh distinct indices over the
process, and with `n < 1` raises the allocation `ValueError` without
allocating any qubit (the index counter is unchanged). -/
theorem C6_alloc (pid state : Nat) (n : Int) :
    (1 ≤ n →
      ∃ q, Process.alloc pid state n = (.ok q, state + n.toNat) ∧
        q.qubits.length = n.toNat ∧ q.qubits.Nodup ∧
        (∀ i ∈ q.qubits, state ≤ i) ∧ q.process = pid) ∧
    (n < 1 →
      Process.alloc pid state n =
        (.error (.valueError "Cannot allocate less than 1 qubit"), state)) := by
  constructor
  · intro h
    refine ⟨⟨(List.range n.toNat).map (fun i => state + i), pid⟩, ?_, ?_, ?_, ?_, rfl⟩
    · simp [Process.alloc, not_lt.mpr h]
    · simp
    · exact List.Nodup.map (fun x y hxy => by simpa using hxy)
        (List.nodup_range n.toNat)
    · intro i hi
      rcases List.mem_map.mp hi with ⟨j, _, hj⟩
      omega
  · intro h
    simp [Process.alloc, h]

/-- Witness for C6 at `n = 3` (success) and `n = 0` (failure). -/
theorem C6_alloc_witness :
    (∃ q, Process.alloc 7 5 3 = (.ok q, 5 + (3 : Int).toNat) ∧
      q.qubits.length = (3 : Int).toNat ∧ q.qubits.Nodup ∧
      (∀ i ∈ q.qubits, 5 ≤ i) ∧ q.process = 7) ∧
    Process.alloc 7 5 0 =
      (.error (.valueError "Cannot allocate less than 1 qubit"), 5) :=
  ⟨(C6_alloc 7 5 3).1 (by decide), (C6_alloc 7 5 0).2 (by decide)⟩

/-- C10: `Quant.__getitem__` with an in-range integer key returns a `Quant`
over the same process wrapping the one-element list of that entry (never a
bare index); with a slice key it returns a `Quant` over the same process
whose sequence is exactly the Python slice of `q.qubits`. -/
theorem C10_getitem_wraps (q : Quant) :
    (∀ i j, pyIndex q.qubits.length i = some j →
      q.__getitem__ (.int i) = .ok ⟨[q.qubits.getD j 0], q.process⟩) ∧
    (∀ s e st l, listGetSlice q.qubits s e st = .ok l →
      q.__getitem__ (.slice s e st) = .ok ⟨l, q.process⟩) := by
  constructor
  · intro i j h
    simp [Quant.__getitem__, listGetInt, h, Except.map]
  · intro s e st l h
    simp [Quant.__getitem__, h, Except.map]

/-- Witness for C10: the negative index `-1` of `[5, 6, 7]` wraps to the
singleton `[7]`, and the slice `[0:2]` gives `[5, 6]`, both over the same
process. -/
theorem C10_getitem_wraps_witness :
    Quant.__getitem__ ⟨[5, 6, 7], 2⟩ (.int (-1)) = .ok ⟨[7], 2⟩ ∧
    Quant.__getitem__ ⟨[5, 6, 7], 2⟩ (.slice (some 0) (some 2) none) =
      .ok ⟨[5, 6], 2⟩ :=
  ⟨(C10_getitem_wraps ⟨[5, 6, 7], 2⟩).1 (-1) 2 (by decide),
    (C10_getitem_wraps ⟨[5, 6, 7], 2⟩).2 (some 0) (some 2) none [5, 6] (by decide)⟩

/-- C8 counterexample: the `InvalidAllocation` and `CrossProcessError`
failures are both raised as the generic `ValueError` exception class, so
an `except` clause branching on the exception kind cannot distinguish
them; they differ only in message text. -/
theorem C8_counterexample :
    (Process.alloc 0 0 0).1 =
      .error (.valueError "Cannot allocate less than 1 qubit") ∧
    Quant.__add__ ⟨[0], 0⟩ ⟨[1], 1⟩ =
      .error (.valueError "Cannot concatenate qubits from different processes") ∧
    PyError.cls (.valueError "Cannot allocate less than 1 qubit") =
      PyError.cls
        (.valueError "Cannot concatenate qubits from different processes") := by
  refine ⟨by decide, by decide, rfl⟩

/-- C8 amended: the three failures are pairwise distinct exception values
(distinguishable by message), the scope-leak failure is distinguishable by
class (`RuntimeError`), but invalid allocation and cross-process
concatenation both carry the generic `ValueError` class, so class-based
branching cannot separate those two. -/
theorem C8_amended_distinct_errors (pid st : Nat) (n : Int) (a b gq : Quant)
    (status : Nat → Bool) (e1 e2 e3 : PyError)
    (h1 : (Process.alloc pid st n).1 = .error e1)
    (h2 : a.__add__ b = .error e2)
    (h3 : gq.__exit__ status = .error e3) :
    e1 ≠ e2 ∧ e1 ≠ e3 ∧ e2 ≠ e3 ∧
    e1.cls = "ValueError" ∧ e2.cls = "ValueError" ∧ e3.cls = "RuntimeError" := by
  have g1 : e1 = .valueError "Cannot allocate less than 1 qubit" := by
    unfold Process.alloc at h1
    split at h1
    · simpa using h1.symm
    · simp at h1
  have g2 : e2 = .valueError "Cannot concatenate qubits from different processes" := by
    unfold Quant.__add__ at h2
    split at h2
    · simpa using h2.symm
    · simp at h2
  have g3 : e3 = .runtimeError "non-free quant at the end of scope" := by
    unfold Quant.__exit__ at h3
    split at h3
    · simpa using h3.symm
    · simp at h3
  subst g1 g2 g3
  refine ⟨by decide, by decide, by decide, rfl, rfl, rfl⟩

/-- Witness for the amended C8 at concrete failing calls. -/
theorem C8_amended_witness :
    (PyError.valueError "Cannot allocate less than 1 qubit" ≠
      PyError.valueError "Cannot concatenate qubits from different processes") ∧
    (PyError.valueError "Cannot allocate less than 1 qubit" ≠
      PyError.runtimeError "non-free quant at the end of scope") ∧
    (PyError.valueError "Cannot concatenate qubits from different processes" ≠
      PyError.runtimeError "non-free quant at the end of scope") ∧
    PyError.cls (.valueError "Cannot allocate less than 1 qubit") = "ValueError" ∧
    PyError.cls (.valueError "Cannot concatenate qubits from different processes") =
      "ValueError" ∧
    PyError.cls (.runtimeError "non-free quant at the end of scope") =
      "RuntimeError" :=
  C8_amended_distinct_errors 0 0 0 ⟨[0], 0⟩ ⟨[1], 1⟩ ⟨[0], 0⟩ (fun _ => true)
    _ _ _ (by decide) (by decide) (by decide)

/-- C3: if the engine writes the payload into any buffer of capacity at
least the reported size, both retrieval loops return exactly that payload
from a call whose reported size is within the buffer capacity, growing the
buffer at most once to `required + 1 ≥ required`; the oversize condition
never surfaces as an error. -/
theorem C3_buffer_retry (required b : Nat) (content : Nat → List Nat)
    (payload : List Nat)
    (hc : ∀ cap, required ≤ cap → (content cap).take required = payload) :
    Process.get_metadata required content b =
      (payload, if required > b then required + 1 else b) ∧
    required ≤ (Process.get_metadata required content b).2 ∧
    Process.get_instructions required content b =
      (payload, if required > b then required + 1 else b) ∧
    required ≤ (Process.get_instructions required content b).2 := by
  have hm : Process.get_metadata required content b =
      (payload, if required > b then required + 1 else b) := by
    by_cases h : required > b
    · rw [Process.get_metadata, if_pos h, Process.get_metadata,
        if_neg (by omega), hc (required + 1) (by omega), if_pos h]
    · rw [Process.get_metadata, if_neg h, hc b (by omega), if_neg h]
  have hi : Process.get_instructions required content b =
      (payload, if required > b then required + 1 else b) := by
    by_cases h : required > b
    · rw [Process.get_instructions, if_pos h, Process.get_instructions,
        if_neg (by omega), hc (required + 1) (by omega), if_pos h]
    · rw [Process.get_instructions, if_neg h, hc b (by omega), if_neg h]
  refine ⟨hm, ?_, hi, ?_⟩
  · rw [hm]; split <;> omega
  · rw [hi]; split <;> omega

/-- Witness for C3 at a reported size of 3 against a capacity-2 buffer. -/
theorem C3_buffer_retry_witness :
    Process.get_metadata 3 (fun _ => [9, 9, 9, 0]) 2 =
      ([9, 9, 9], if 3 > 2 then 3 + 1 else 2) ∧
    3 ≤ (Process.get_metadata 3 (fun _ => [9, 9, 9, 0]) 2).2 ∧
    Process.get_instructions 3 (fun _ => [9, 9, 9, 0]) 2 =
      ([9, 9, 9], if 3 > 2 then 3 + 1 else 2) ∧
    3 ≤ (Process.get_instructions 3 (fun _ => [9, 9, 9, 0]) 2).2 :=
  C3_buffer_retry 3 2 (fun _ => [9, 9, 9, 0]) [9, 9, 9] (fun cap _ => rfl)

/-- C4: resolution of all three deferred-result kinds is monotonic: once a
value is cached, `_check` returns the object unchanged and the accessor
and `get` return the first-cached value, whatever the engine now
reports. -/
theorem C4_monotonic_resolution :
    (∀ (e post : MeasEngine) (m : Measurement) v, m._value = some v →
      m._check e = .ok m ∧ m.value e = .ok (some v, m) ∧
      m.get e post = .ok (some v, m)) ∧
    (∀ (e post : DumpEngine) (q : QuantumState) v, q._states = some v →
      q._check e = q ∧ q.states e = (some v, q) ∧ q.get e post = (some v, q)) ∧
    (∀ (e post : SampleEngine) (s : Samples) v, s._value = some v →
      s._check e = s ∧ s.value e = (some v, s) ∧ s.get e post = (some v, s)) := by
  refine ⟨fun e post m v h => ?_, fun e post q v h => ?_, fun e post s v h => ?_⟩
  · refine ⟨by simp [Measurement._check, h], ?_, ?_⟩
    · simp [Measurement.value, Measurement._check, h, Except.map]
    · simp [Measurement.get, Measurement.value, Measurement._check, h, Except.map]
  · refine ⟨by simp [QuantumState._check, h], ?_, ?_⟩
    · simp [QuantumState.states, QuantumState._check, h]
    · simp [QuantumState.get, QuantumState.states, QuantumState._check, h]
  · refine ⟨by simp [Samples._check, h], ?_, ?_⟩
    · simp [Samples.value, Samples._check, h]
    · simp [Samples.get, Samples.value, Samples._check, h]

/-- Witness for C4 at concrete cached results of each kind. -/
theorem C4_monotonic_resolution_witness :
    (Measurement._check ⟨fun _ => (false, 0)⟩ ⟨[[1]], [0], some 7⟩ =
        .ok ⟨[[1]], [0], some 7⟩ ∧
      Measurement.value ⟨fun _ => (false, 0)⟩ ⟨[[1]], [0], some 7⟩ =
        .ok (some 7, ⟨[[1]], [0], some 7⟩) ∧
      Measurement.get ⟨fun _ => (false, 0)⟩ ⟨fun _ => (true, 9)⟩
          ⟨[[1]], [0], some 7⟩ = .ok (some 7, ⟨[[1]], [0], some 7⟩)) ∧
    (QuantumState._check ⟨true, []⟩ ⟨0, 1, some [(0, 1)]⟩ =
        ⟨0, 1, some [(0, 1)]⟩ ∧
      QuantumState.states ⟨true, []⟩ ⟨0, 1, some [(0, 1)]⟩ =
        (some [(0, 1)], ⟨0, 1, some [(0, 1)]⟩) ∧
      QuantumState.get ⟨true, []⟩ ⟨true, []⟩ ⟨0, 1, some [(0, 1)]⟩ =
        (some [(0, 1)], ⟨0, 1, some [(0, 1)]⟩)) ∧
    (Samples._check ⟨true, [3], [9], 1⟩ ⟨0, some [(2, 5)]⟩ =
        ⟨0, some [(2, 5)]⟩ ∧
      Samples.value ⟨true, [3], [9], 1⟩ ⟨0, some [(2, 5)]⟩ =
        (some [(2, 5)], ⟨0, some [(2, 5)]⟩) ∧
      Samples.get ⟨true, [3], [9], 1⟩ ⟨true, [3], [9], 1⟩ ⟨0, some [(2, 5)]⟩ =
        (some [(2, 5)], ⟨0, some [(2, 5)]⟩)) :=
  ⟨C4_monotonic_resolution.1 ⟨fun _ => (false, 0)⟩ ⟨fun _ => (true, 9)⟩
      ⟨[[1]], [0], some 7⟩ 7 rfl,
    C4_monotonic_resolution.2.1 ⟨true, []⟩ ⟨true, []⟩ ⟨0, 1, some [(0, 1)]⟩
      [(0, 1)] rfl,
    C4_monotonic_resolution.2.2 ⟨true, [3], [9], 1⟩ ⟨true, [3], [9], 1⟩
      ⟨0, some [(2, 5)]⟩ [(2, 5)] rfl⟩

/-- The chunks of a qubit list concatenate back to the list. -/
theorem chunkList_flatten (l : List Nat) : (chunkList l).flatten = l := by
  induction l using chunkList.induct with
  | case1 => rw [chunkList]; simp
  | case2 l h ih => rw [chunkList]; simp [h, ih]

/-- Every chunk has at most 64 entries. -/
theorem chunkList_le (l : List Nat) : ∀ c ∈ chunkList l, c.length ≤ 64 := by
  induction l using chunkList.induct with
  | case1 => rw [chunkList]; simp
  | case2 l h ih =>
      rw [chunkList]
      simp only [h, if_false]
      intro c hc
      rcases List.mem_cons.mp hc with h1 | h2
      · subst h1; simp
      · exact ih c h2

/-- A nonempty list has at least one chunk. -/
theorem chunkList_ne_nil (l : List Nat) (h : l ≠ []) : chunkList l ≠ [] := by
  rw [chunkList]; simp [h]

/-- Left shift distributes over bitwise or. -/
theorem shiftLeft_or_distrib (a b n : Nat) :
    (a ||| b) <<< n = (a <<< n) ||| (b <<< n) := by
  apply Nat.eq_of_testBit_eq
  intro i
  simp only [Nat.testBit_shiftLeft, Nat.testBit_or]
  cases decide (n ≤ i) <;> simp

/-- The shift-or accumulation loop of `Measurement._check` computes the
spec's concatenation formula over (width, chunk result) pairs. -/
theorem foldl_shiftOr (ps : List (Nat × Nat)) (a : Nat) :
    ps.foldl (fun acc p => (acc <<< p.1) ||| p.2) a
      = (a <<< (ps.map Prod.fst).sum) ||| assembleSpec ps := by
  induction ps generalizing a with
  | nil => simp [assembleSpec]
  | cons p rest ih =>
      cases p with
      | mk w v =>
        simp only [List.foldl_cons, assembleSpec, List.map_cons, List.sum_cons]
        rw [ih, shiftLeft_or_distrib, Nat.shiftLeft_add, Nat.or_assoc]

/-- The chunk-level fold of `Measurement._check` equals the spec formula
over (chunk width, chunk result) pairs. -/
theorem measure_fold (chunks : List (List Nat)) (vals : List Nat) :
    (chunks.zip vals).foldl (fun acc p => (acc <<< p.1.length) ||| p.2) 0
      = assembleSpec ((chunks.map List.length).zip vals) := by
  have h1 := foldl_shiftOr ((chunks.zip vals).map (Prod.map List.length id)) 0
  rw [List.foldl_map] at h1
  simp only [Prod.map_fst, Prod.map_snd, id_eq, Nat.zero_shiftLeft,
    Nat.zero_or] at h1
  rw [List.zip_map_left]
  exact h1

/-- `Measurement._check` on an unresolved measurement whose first
sub-measurement is not ready returns the object unchanged. -/
theorem check_pending (e : MeasEngine) (ch : List (List Nat)) (i0 : Nat)
    (irest : List Nat) (h0 : (e.get_measurement i0).1 = false) :
    Measurement._check e ⟨ch, i0 :: irest, none⟩ = .ok ⟨ch, i0 :: irest, none⟩ := by
  simp [Measurement._check, h0]

/-- `Measurement._check` on an unresolved measurement with every
sub-measurement ready caches the spec's concatenation of the chunk
results. -/
theorem check_ready (e : MeasEngine) (ch : List (List Nat)) (i0 : Nat)
    (irest : List Nat)
    (hready : ∀ i ∈ i0 :: irest, (e.get_measurement i).1 = true) :
    Measurement._check e ⟨ch, i0 :: irest, none⟩ =
      .ok ⟨ch, i0 :: irest, some (assembleSpec ((ch.map List.length).zip
        ((i0 :: irest).map (fun i => (e.get_measurement i).2))))⟩ := by
  have hall : (((i0 :: irest).map e.get_measurement).all (fun r => r.1)) = true := by
    rw [List.all_eq_true]
    intro r hr
    rcases List.mem_map.mp hr with ⟨i, hi, rfl⟩
    exact hready i hi
  simp only [List.map_cons] at hall
  simp only [Measurement._check, List.map_cons]
  rw [if_pos hall]
  have hv := measure_fold ch ((i0 :: irest).map (fun i => (e.get_measurement i).2))
  simp only [List.map_cons] at hv
  simp only [List.map_map, Function.comp_def]
  rw [hv]

/-- C1 amended (`k ≥ 1`): the measured group is split into consecutive
chunks of at most 64 qubits; in batch mode (no sub-measurement ready
before execution) the `value` read returns `None` leaving the object
untouched, and `get` forces execution and returns the bitwise
concatenation, most-significant chunk first, of the chunk results in
qubit order, each chunk shifted left by the widths of all later chunks
and or-ed together, assuming the engine reports every sub-measurement
ready after execution. -/
theorem C1_measurement_amended (qs : List Nat) (measure : List Nat → Nat)
    (pre post : MeasEngine) (hqs : qs ≠ [])
    (hpre : ∀ i, (pre.get_measurement i).1 = false)
    (hpost : ∀ i, (post.get_measurement i).1 = true) :
    ((Measurement.init measure qs).chunks.flatten = qs ∧
      ∀ c ∈ (Measurement.init measure qs).chunks, c.length ≤ 64) ∧
    (Measurement.init measure qs).value pre =
      .ok (none, Measurement.init measure qs) ∧
    (∃ m2, (Measurement.init measure qs).get pre post =
      .ok (some (assembleSpec
          (((Measurement.init measure qs).chunks.map List.length).zip
            ((Measurement.init measure qs).indexes.map
              (fun i => (post.get_measurement i).2)))), m2)) := by
  obtain ⟨c0, cs, hcons⟩ : ∃ c0 cs, chunkList qs = c0 :: cs := by
    cases hch : chunkList qs with
    | nil => exact absurd hch (chunkList_ne_nil qs hqs)
    | cons c0 cs => exact ⟨c0, cs, rfl⟩
  have hminit : Measurement.init measure qs =
      ⟨c0 :: cs, measure c0 :: cs.map measure, none⟩ := by
    rw [Measurement.init, hcons]
    rfl
  rw [hminit]
  have hcheckpre : Measurement._check pre
      ⟨c0 :: cs, measure c0 :: cs.map measure, none⟩ =
      .ok ⟨c0 :: cs, measure c0 :: cs.map measure, none⟩ :=
    check_pending pre (c0 :: cs) (measure c0) (cs.map measure)
      (hpre (measure c0))
  refine ⟨⟨?_, ?_⟩, ?_, ?_⟩
  · show (c0 :: cs).flatten = qs
    rw [← hcons]
    exact chunkList_flatten qs
  · show ∀ c ∈ c0 :: cs, c.length ≤ 64
    rw [← hcons]
    exact chunkList_le qs
  · rw [Measurement.value, hcheckpre, Except.map]
  · have hcheckpost := check_ready post (c0 :: cs) (measure c0)
      (cs.map measure) (fun i _ => hpost i)
    refine ⟨⟨c0 :: cs, measure c0 :: cs.map measure,
      some (assembleSpec (((c0 :: cs).map List.length).zip
        ((measure c0 :: cs.map measure).map
          (fun i => (post.get_measurement i).2))))⟩, ?_⟩
    simp only [Measurement.get, hcheckpre]
    simp only [Measurement.value, hcheckpost, Except.map]

/-- C1 counterexample: over the empty qubit group (`k = 0`) the `value`
read does not return `None`; `Measurement._check` raises a `ValueError`
from unpacking the empty `zip` of sub-measurement polls, even in batch
mode before execution. -/
theorem C1_measurement_counterexample :
    Measurement.value ⟨fun _ => (false, 0)⟩ (Measurement.init (fun _ => 0) []) =
      .error (.valueError "not enough values to unpack (expected 2, got 0)") := by
  have h : chunkList [] = [] := by rw [chunkList]; simp
  simp [Measurement.value, Measurement._check, Measurement.init, h, Except.map]

/-- Witness for the amended C1: a two-qubit group in batch mode, engine
reporting value 3 for its single chunk after execution. -/
theorem C1_measurement_amended_witness :
    (((Measurement.init (fun _ => 0) [4, 5]).chunks.flatten = [4, 5] ∧
      ∀ c ∈ (Measurement.init (fun _ => 0) [4, 5]).chunks, c.length ≤ 64) ∧
    (Measurement.init (fun _ => 0) [4, 5]).value ⟨fun _ => (false, 0)⟩ =
      .ok (none, Measurement.init (fun _ => 0) [4, 5]) ∧
    (∃ m2, (Measurement.init (fun _ => 0) [4, 5]).get ⟨fun _ => (false, 0)⟩
        ⟨fun _ => (true, 3)⟩ =
      .ok (some (assembleSpec
          (((Measurement.init (fun _ => 0) [4, 5]).chunks.map List.length).zip
            ((Measurement.init (fun _ => 0) [4, 5]).indexes.map
              (fun i => ((⟨fun _ => (true, 3)⟩ : MeasEngine).get_measurement i).2)))),
        m2))) :=
  C1_measurement_amended [4, 5] (fun _ => 0) ⟨fun _ => (false, 0)⟩
    ⟨fun _ => (true, 3)⟩ (by decide) (fun _ => rfl) (fun _ => rfl)

/-- The `defaultdict` accumulation evaluated at one basis state equals the
starting value plus the sum of the amplitudes of the records decoding to
that state. -/
theorem accumulate_apply (recs : List DumpRecord) (f : Nat → ℂ) (s : Nat) :
    (recs.foldl
      (fun g r t => if t = decodeState r.state then g t + r.amp else g t) f) s
      = f s +
        (recs.map (fun r => if decodeState r.state = s then r.amp else 0)).sum := by
  induction recs generalizing f with
  | nil => simp
  | cons r rest ih =>
      simp only [List.foldl_cons, List.map_cons, List.sum_cons]
      rw [ih]
      by_cases h : decodeState r.state = s
      · rw [if_pos h.symm, if_pos h]
        ring
      · rw [if_neg (fun hh => h hh.symm), if_neg h]
        ring

/-- `accumulate` sums the amplitudes of the records with equal decoded
basis states. -/
theorem accumulate_eq (recs : List DumpRecord) (s : Nat) :
    accumulate recs s =
      (recs.map (fun r => if decodeState r.state = s then r.amp else 0)).sum := by
  rw [accumulate, accumulate_apply]
  simp

/-- C2 amended (positive probability mass): decoding concatenates each
record's bit-pattern chunks into one basis-state integer, sums amplitudes
of equal basis states, and renormalizes when the mass deviates from 1 by
more than `1e-10`; consequently, whenever the accumulated mass is
positive, the resolved mapping's sum of squared magnitudes is within
`1e-10` of 1. -/
theorem C2_normalized_amended (recs : List DumpRecord)
    (hp : 0 < probMassOf (accumulate recs) (dumpKeys recs)) :
    (∀ s, accumulate recs s =
      (recs.map (fun r => if decodeState r.state = s then r.amp else 0)).sum) ∧
    |((resolveDump recs).map (fun p => Complex.abs p.2 ^ 2)).sum - 1| < 1e-10 := by
  refine ⟨fun s => accumulate_eq recs s, ?_⟩
  rw [resolveDump]
  by_cases hcase :
      |probMassOf (accumulate recs) (dumpKeys recs) - 1| < 1e-10
  · rw [if_pos hcase, List.map_map]
    exact hcase
  · rw [if_neg hcase, List.map_map]
    have hfun : ((fun q => Complex.abs (Prod.snd q) ^ 2) ∘
        (fun s => (s, accumulate recs s /
          ((Real.sqrt (probMassOf (accumulate recs) (dumpKeys recs)) : ℝ) : ℂ))))
        = fun s => Complex.abs (accumulate recs s) ^ 2 *
            (probMassOf (accumulate recs) (dumpKeys recs))⁻¹ := by
      funext s
      simp only [Function.comp_apply]
      rw [map_div₀, div_pow, Complex.abs_ofReal,
        abs_of_nonneg (Real.sqrt_nonneg _), Real.sq_sqrt hp.le, div_eq_mul_inv]
    rw [hfun, List.sum_map_mul_right]
    have hone : (probMassOf (accumulate recs) (dumpKeys recs)) *
        (probMassOf (accumulate recs) (dumpKeys recs))⁻¹ = 1 :=
      mul_inv_cancel₀ (ne_of_gt hp)
    rw [show ((dumpKeys recs).map
        (fun s => Complex.abs (accumulate recs s) ^ 2)).sum
        = probMassOf (accumulate recs) (dumpKeys recs) from rfl, hone]
    norm_num

/-- C2 counterexample: when the engine reports no records at all, the
accumulated mass is 0, the renormalization branch produces the empty
mapping, and its sum of squared magnitudes is 0, not within `1e-10` of
1. -/
theorem C2_counterexample :
    resolveDump [] = [] ∧
    ¬ |((resolveDump []).map (fun p => Complex.abs p.2 ^ 2)).sum - 1| < 1e-10 := by
  have h : resolveDump [] = [] := by
    simp [resolveDump, dumpKeys]
  refine ⟨h, ?_⟩
  rw [h]
  norm_num

/-- Witness for the amended C2 at the single record `(state [2], amp 1)`,
whose mass is 1. -/
theorem C2_normalized_amended_witness :
    0 < probMassOf (accumulate [⟨[2], 1⟩]) (dumpKeys [⟨[2], 1⟩]) ∧
    ((∀ s, accumulate [⟨[2], 1⟩] s =
      ([⟨[2], 1⟩].map
        (fun r => if decodeState (DumpRecord.state r) = s then r.amp else 0)).sum) ∧
    |((resolveDump [⟨[2], 1⟩]).map (fun p => Complex.abs p.2 ^ 2)).sum - 1|
      < 1e-10) :=
  ⟨by simp [probMassOf, accumulate, dumpKeys, decodeState],
    C2_normalized_amended [⟨[2], 1⟩]
      (by simp [probMassOf, accumulate, dumpKeys, decodeState])⟩

/-- C7: evaluating `sample` at the resolved amplitude mapping `{0 ↦ 1}`
(every measured qubit in the zero state): because the source passes
`list(self.probabilities)` (the iteration of the probabilities dictionary,
i.e. its keys, the basis-state labels) as the `weights` argument of
`Random.choices`, the total weight here is 0 and `choices` raises
`ValueError`, instead of returning the histogram the claim requires for
every resolved state, shot count and seed. -/
theorem C7_sample_weights_bug (rand : Nat → ℝ) (e : DumpEngine) (shots : Nat) :
    QuantumState.sample rand e ⟨0, 1, some [(0, 1)]⟩ shots =
      .error (.valueError "Total of weights must be greater than zero") := by
  simp only [QuantumState.sample, QuantumState._check]
  simp [pyChoices, cumWeights, List.scanl]

end Ket
